import Mathlib

/-!
Verification of the alexa-music-server request-authentication, token-issuance
and session/position-tracking subsystem.

The development shallowly embeds the relevant JavaScript sources:
* `SessionDurableObject` (session/position-tracking state machine),
* the JWT stream-token utilities (`generateStreamToken` / `verifyStreamToken`),
* `AlexaVerifier.verifyTimestamp` (timestamp window check),
* the in-memory fixed-window rate limiter (`rateLimitCheck` / `cleanupOldEntries`).

Wall-clock instants (`Date.now()`, ISO timestamps) are modelled as integers in
milliseconds (seconds for the JWT `iat`/`exp` claims, as in the source which
divides by 1000).  Platform primitives that are not code of this repository
(`crypto.subtle` HMAC-SHA256, `btoa`/`atob` base64url, `JSON.stringify`/`parse`)
are modelled as explicit function parameters of the token operations; the
theorems state the properties under the standard assumptions on them
(deterministic signing, collision-freedom where cryptographically required,
decode inverting encode, outputs free of the `.` delimiter), and each theorem
with such hypotheses comes with a concrete executable instantiation.
-/

/-! ## Session Durable Object (SessionDurableObject.js)

The session record, with the fields of the JS object.  ISO-8601 timestamp
strings are modelled by the integer millisecond instant they denote;
`playbackState` keeps its JS string representation (`'PLAYING'`, `'PAUSED'`,
`'STOPPED'`, `'IDLE'`) so the `!== 'PLAYING'` comparisons of the source are
embedded literally. -/
structure Session where
  sessionId : Option String
  trackIds : List String
  currentIndex : Nat
  createdAt : Int
  updatedAt : Int
  offsetInMilliseconds : Int
  playbackState : String
  currentToken : Option String
  lastPlaybackTimestamp : Int
  retryCount : Nat
  lastError : Option String
  playbackStartedAt : Option Int
  playbackStartOffset : Int
deriving DecidableEq, Repr

/-- The Durable Object state visible to the claims: the session record plus
whether a storage alarm is currently pending.  A Durable Object has at most
one pending alarm (`setAlarm` overwrites, `deleteAlarm` clears), so a boolean
captures it exactly. -/
structure DOState where
  session : Session
  alarmArmed : Bool
deriving DecidableEq, Repr

/-- The default session record built in the constructor when storage is empty
(fresh Durable Object: no alarm pending). -/
def initialState (now : Int) : DOState :=
  { session :=
      { sessionId := none
        trackIds := []
        currentIndex := 0
        createdAt := now
        updatedAt := now
        offsetInMilliseconds := 0
        playbackState := "IDLE"
        currentToken := none
        lastPlaybackTimestamp := now
        retryCount := 0
        lastError := none
        playbackStartedAt := none
        playbackStartOffset := 0 }
    alarmArmed := false }

/-- `createSession(sessionId, trackIds, currentIndex)`: rejects (HTTP 400,
modelled as `none`) when `sessionId` is falsy or `trackIds` is empty,
otherwise replaces the session record.  It does not touch the alarm. -/
def createSession (st : DOState) (now : Int) (sessionId : String)
    (trackIds : List String) (currentIndex : Nat) : Option DOState :=
  if sessionId = "" ∨ trackIds = [] then none
  else some
    { session :=
        { sessionId := some sessionId
          trackIds := trackIds
          currentIndex := currentIndex
          createdAt := now
          updatedAt := now
          offsetInMilliseconds := 0
          playbackState := "IDLE"
          currentToken := trackIds.get? currentIndex
          lastPlaybackTimestamp := now
          retryCount := 0
          lastError := none
          playbackStartedAt := none
          playbackStartOffset := 0 }
      alarmArmed := st.alarmArmed }

/-- `updatePlaybackPosition(offsetInMilliseconds, playbackState)`: stores the
offset and state, refreshes the timestamps, and cancels the alarm when the new
state is not `'PLAYING'`.  It does not arm an alarm and does not clear
`playbackStartedAt`. -/
def updatePlaybackPosition (st : DOState) (now : Int) (offsetInMilliseconds : Int)
    (playbackState : String) : DOState :=
  { session :=
      { st.session with
        offsetInMilliseconds := offsetInMilliseconds
        playbackState := playbackState
        lastPlaybackTimestamp := now
        updatedAt := now }
    alarmArmed := if playbackState ≠ "PLAYING" then false else st.alarmArmed }

/-- `recordPlaybackStart(offsetInMilliseconds)`: records the wall-clock start
instant and start offset, sets the state to `'PLAYING'` and schedules the
first 30-second alarm. -/
def recordPlaybackStart (st : DOState) (now : Int) (offsetInMilliseconds : Int) :
    DOState :=
  { session :=
      { st.session with
        playbackStartedAt := some now
        playbackStartOffset := offsetInMilliseconds
        playbackState := "PLAYING"
        updatedAt := now }
    alarmArmed := true }

/-- `setPlaybackState(playbackState)`: stores the state, refreshes the
timestamps, and cancels the alarm when the new state is not `'PLAYING'`. -/
def setPlaybackState (st : DOState) (now : Int) (playbackState : String) : DOState :=
  { session :=
      { st.session with
        playbackState := playbackState
        lastPlaybackTimestamp := now
        updatedAt := now }
    alarmArmed := if playbackState ≠ "PLAYING" then false else st.alarmArmed }

/-- `estimatePlaybackPosition()`: if no playback start instant is recorded,
return the stored offset; otherwise extrapolate
`playbackStartOffset + (now - playbackStartedAt)`, clamped at 0.  Note the
branch is on `playbackStartedAt`, not on `playbackState`. -/
def estimatePlaybackPosition (s : Session) (now : Int) : Int :=
  match s.playbackStartedAt with
  | none => s.offsetInMilliseconds
  | some startTime => max 0 (s.playbackStartOffset + (now - startTime))

/-- The `alarm()` handler.  Entering the handler consumes the pending alarm;
if the session is not `'PLAYING'` the handler returns without re-arming,
otherwise it persists the estimated position, refreshes the timestamps and
re-arms a 30-second alarm (guarded by the literal `=== 'PLAYING'` re-check of
the source). -/
def alarmFire (st : DOState) (now : Int) : DOState :=
  let st0 : DOState := { st with alarmArmed := false }
  if st0.session.playbackState ≠ "PLAYING" then st0
  else
    let s := st0.session
    { session :=
        { s with
          offsetInMilliseconds := estimatePlaybackPosition s now
          lastPlaybackTimestamp := now
          updatedAt := now }
      alarmArmed := if s.playbackState = "PLAYING" then true else false }

/-- `nextTrack()`: if `currentIndex + 1` is past the end of the track list,
answer `trackId: null` without mutating the record; otherwise advance the
index, set `currentToken` to the new track and reset both offsets to 0. -/
def nextTrack (st : DOState) (now : Int) : Option String × DOState :=
  let nextIndex := st.session.currentIndex + 1
  if nextIndex ≥ st.session.trackIds.length then (none, st)
  else
    let s :=
      { st.session with
        currentIndex := nextIndex
        currentToken := st.session.trackIds.get? nextIndex
        offsetInMilliseconds := 0
        playbackStartOffset := 0
        updatedAt := now }
    (st.session.trackIds.get? nextIndex, { st with session := s })

/-- States of a session reachable by the operation set named in the invariant
claim: `createSession`, `recordPlaybackStart`, `updatePlaybackPosition`,
`setPlaybackState`, and alarm firings (an alarm can fire only while one is
pending), starting from a fresh Durable Object. -/
inductive ReachSession : DOState → Prop where
  | init (now : Int) : ReachSession (initialState now)
  | create {st st' : DOState} (now : Int) (sessionId : String)
      (trackIds : List String) (currentIndex : Nat) :
      ReachSession st → createSession st now sessionId trackIds currentIndex = some st' →
      ReachSession st'
  | update {st : DOState} (now offsetInMilliseconds : Int) (playbackState : String) :
      ReachSession st →
      ReachSession (updatePlaybackPosition st now offsetInMilliseconds playbackState)
  | setState {st : DOState} (now : Int) (playbackState : String) :
      ReachSession st → ReachSession (setPlaybackState st now playbackState)
  | start {st : DOState} (now offsetInMilliseconds : Int) :
      ReachSession st → ReachSession (recordPlaybackStart st now offsetInMilliseconds)
  | fire {st : DOState} (now : Int) :
      ReachSession st → st.alarmArmed = true → ReachSession (alarmFire st now)

/-- Restricted reachability under which the armed-iff-playing invariant does
hold: `createSession` is only invoked while no alarm is pending, and
`updatePlaybackPosition`/`setPlaybackState` are only invoked with a
non-`'PLAYING'` target state (every transition into `'PLAYING'` goes through
`recordPlaybackStart`). -/
inductive ReachGuarded : DOState → Prop where
  | init (now : Int) : ReachGuarded (initialState now)
  | create {st st' : DOState} (now : Int) (sessionId : String)
      (trackIds : List String) (currentIndex : Nat) :
      ReachGuarded st → st.alarmArmed = false →
      createSession st now sessionId trackIds currentIndex = some st' →
      ReachGuarded st'
  | update {st : DOState} (now offsetInMilliseconds : Int) (playbackState : String) :
      ReachGuarded st → playbackState ≠ "PLAYING" →
      ReachGuarded (updatePlaybackPosition st now offsetInMilliseconds playbackState)
  | setState {st : DOState} (now : Int) (playbackState : String) :
      ReachGuarded st → playbackState ≠ "PLAYING" →
      ReachGuarded (setPlaybackState st now playbackState)
  | start {st : DOState} (now offsetInMilliseconds : Int) :
      ReachGuarded st → ReachGuarded (recordPlaybackStart st now offsetInMilliseconds)
  | fire {st : DOState} (now : Int) :
      ReachGuarded st → st.alarmArmed = true → ReachGuarded (alarmFire st now)

/-! ## Session theorems -/

/-- Concrete trace: create a session, start playback at offset 0 at instant
1000, pause at instant 5000 persisting offset 1000 ms, then query the
estimated position at instant 65000. -/
def pausedTrace : DOState :=
  updatePlaybackPosition
    (recordPlaybackStart
      ((createSession (initialState 0) 1000 "device1" ["trackA", "trackB"] 0).getD
        (initialState 0))
      1000 0)
    5000 1000 "PAUSED"

/-- C1: the claim (and the spec) say that while not Playing,
`estimatePlaybackPosition` returns the last persisted offset — in particular
`updatePlaybackPosition(id, 1000, PAUSED)` followed by
`estimatePlaybackPosition` yields exactly 1000.  The code instead branches on
`playbackStartedAt` (which `updatePlaybackPosition` never clears), so on this
paused session it keeps extrapolating wall-clock time: at instant 65000 it
answers 64000, not the persisted 1000. -/
theorem estimate_extrapolates_while_paused :
    pausedTrace.session.playbackState = "PAUSED" ∧
    pausedTrace.session.offsetInMilliseconds = 1000 ∧
    estimatePlaybackPosition pausedTrace.session 65000 = 64000 := by
  refine ⟨rfl, rfl, ?_⟩
  decide

/-- A state reachable by `createSession` then `updatePlaybackPosition(0,
'PLAYING')`: it is `'PLAYING'` yet no alarm is pending, because
`updatePlaybackPosition` never arms an alarm. -/
def playingNoAlarm : DOState :=
  updatePlaybackPosition
    ((createSession (initialState 0) 1 "device1" ["trackA"] 0).getD (initialState 0))
    2 0 "PLAYING"

/-- C2 (counterexample): the armed-iff-Playing invariant does not hold over
all sequences of the listed operations: after `createSession` and
`updatePlaybackPosition(0, 'PLAYING')` the session is Playing with no alarm
armed. -/
theorem alarm_iff_playing_fails :
    ¬ (∀ st : DOState, ReachSession st →
        (st.alarmArmed = true ↔ st.session.playbackState = "PLAYING")) := by
  intro h
  have hcreate : createSession (initialState 0) 1 "device1" ["trackA"] 0 =
      some ((createSession (initialState 0) 1 "device1" ["trackA"] 0).getD
        (initialState 0)) := by decide
  have hr : ReachSession playingNoAlarm :=
    ReachSession.update 2 0 "PLAYING"
      (ReachSession.create 1 "device1" ["trackA"] 0 (ReachSession.init 0) hcreate)
  have hiff := h playingNoAlarm hr
  have hplay : playingNoAlarm.session.playbackState = "PLAYING" := by decide
  have harm : playingNoAlarm.alarmArmed = false := by decide
  have := hiff.mpr hplay
  rw [harm] at this
  exact Bool.false_ne_true this

/-- C2 (amended): under the restriction that every transition into
`'PLAYING'` goes through `recordPlaybackStart` and `createSession` is only
invoked while no alarm is pending, the invariant holds: in every reachable
state a snapshot alarm (at most one exists per Durable Object) is pending if
and only if the playback state is `'PLAYING'`. -/
theorem alarm_iff_playing_guarded {st : DOState} (h : ReachGuarded st) :
    st.alarmArmed = true ↔ st.session.playbackState = "PLAYING" := by
  induction h with
  | init now => simp [initialState]
  | create now sessionId trackIds currentIndex hst harm hcreate ih =>
    rw [createSession] at hcreate
    split at hcreate
    · exact absurd hcreate (by simp)
    · cases hcreate
      simp [harm]
  | update now offsetInMilliseconds playbackState hst hps ih =>
    simp [updatePlaybackPosition, hps]
  | setState now playbackState hst hps ih =>
    simp [setPlaybackState, hps]
  | start now offsetInMilliseconds hst ih =>
    simp [recordPlaybackStart]
  | fire now hst harm ih =>
    have hplay := ih.mp harm
    simp [alarmFire, hplay]

/-- Witness for `alarm_iff_playing_guarded` at a concrete reachable state:
right after `recordPlaybackStart` the session is Playing and the alarm is
armed. -/
theorem alarm_iff_playing_guarded_witness :
    (recordPlaybackStart (initialState 0) 3 0).alarmArmed = true ↔
      (recordPlaybackStart (initialState 0) 3 0).session.playbackState = "PLAYING" :=
  alarm_iff_playing_guarded (ReachGuarded.start 3 0 (ReachGuarded.init 0))

/-- C8: when `currentIndex + 1` is still within the track list, `nextTrack`
advances `currentIndex` by exactly 1 and resets the persisted offset to 0;
when `currentIndex` is already the last index, `nextTrack` answers
`trackId: null` and leaves the session record (and alarm) unchanged. -/
theorem nextTrack_advances_or_rejects (st : DOState) (now : Int) :
    (st.session.currentIndex + 1 < st.session.trackIds.length →
      (nextTrack st now).2.session.currentIndex = st.session.currentIndex + 1 ∧
      (nextTrack st now).2.session.offsetInMilliseconds = 0) ∧
    (st.session.trackIds.length ≠ 0 →
      st.session.currentIndex = st.session.trackIds.length - 1 →
      (nextTrack st now).1 = none ∧ (nextTrack st now).2 = st) := by
  constructor
  · intro h
    have hlt : ¬ st.session.currentIndex + 1 ≥ st.session.trackIds.length := by omega
    simp [nextTrack, hlt]
  · intro hne hidx
    have hge : st.session.currentIndex + 1 ≥ st.session.trackIds.length := by omega
    simp [nextTrack, hge]

/-- A freshly created two-track session positioned at index 0. -/
def stTwoTracks : DOState :=
  (createSession (initialState 0) 1 "device1" ["trackA", "trackB"] 0).getD (initialState 0)

/-- A freshly created two-track session positioned at the last index. -/
def stAtLast : DOState :=
  (createSession (initialState 0) 1 "device1" ["trackA", "trackB"] 1).getD (initialState 0)

/-- Witness for `nextTrack_advances_or_rejects` at concrete sessions: from
index 0 of two tracks it advances and zeroes the offset; from the last index
it answers null and leaves the state untouched. -/
theorem nextTrack_advances_or_rejects_witness :
    ((nextTrack stTwoTracks 5).2.session.currentIndex =
        stTwoTracks.session.currentIndex + 1 ∧
      (nextTrack stTwoTracks 5).2.session.offsetInMilliseconds = 0) ∧
    ((nextTrack stAtLast 5).1 = none ∧ (nextTrack stAtLast 5).2 = stAtLast) :=
  ⟨(nextTrack_advances_or_rejects stTwoTracks 5).1 (by decide),
   (nextTrack_advances_or_rejects stAtLast 5).2 (by decide) (by decide)⟩

/-! ## Stream tokens (streamToken.js)

Token strings are modelled as `List Char`.  The platform primitives are
parameters: `sign` models `signHS256` (HMAC-SHA256 then base64url), `enc`
models `base64UrlEncode ∘ JSON.stringify` on the payload object, `dec` models
`JSON.parse ∘ base64UrlDecode` where a thrown exception (caught by the
`try`/`catch` of `verifyStreamToken`, which returns null) is `none`. -/

/-- Token strings. -/
abbrev Str := List Char

/-- `token.split('.')` of JavaScript for the single-character separator:
splits at every `'.'`, keeping empty segments. -/
def splitOnDot : Str → List Str
  | [] => [[]]
  | c :: rest =>
    match splitOnDot rest with
    | [] => [[c]]
    | s :: ss => if c = '.' then [] :: s :: ss else (c :: s) :: ss

/-- The JWT payload object.  Fields are optional because `JSON.parse` can
yield objects lacking them (JS `undefined`); `generateStreamToken` always
fills all seven. -/
structure TokenPayload where
  trackId : Option Str
  skillId : Option Str
  type : Option Str
  iat : Option Int
  exp : Option Int
  iss : Option Str
  sub : Option Str
deriving DecidableEq, Repr

/-- The `'stream'` type tag. -/
def streamTag : Str := "stream".data

/-- The constant `iss` claim `'alexa-music-workers'`. -/
def issTag : Str := "alexa-music-workers".data

/-- The payload object `generateStreamToken` builds at epoch-second `nowSec`
with lifetime `expiresIn`. -/
def genPayload (trackId skillId : Str) (expiresIn nowSec : Int) : TokenPayload :=
  { trackId := some trackId
    skillId := some skillId
    type := some streamTag
    iat := some nowSec
    exp := some (nowSec + expiresIn)
    iss := some issTag
    sub := some trackId }

/-- `generateStreamToken(trackId, skillId, secret, expiresIn)` at
epoch-second `nowSec`: encode header and payload, sign
`header + '.' + payload`, and join the three segments with `'.'`. -/
def generateStreamToken (headerEnc : Str) (enc : TokenPayload → Str)
    (sign : Str → Str → Str) (trackId skillId secret : Str)
    (expiresIn nowSec : Int) : Str :=
  let signatureInput := headerEnc ++ '.' :: enc (genPayload trackId skillId expiresIn nowSec)
  signatureInput ++ '.' :: sign signatureInput secret

/-- The truthiness-guarded expiry test `payload.exp && payload.exp < now`:
an absent or zero (falsy) `exp` claim makes the whole check false. -/
def expiredB (exp : Option Int) (nowSec : Int) : Bool :=
  match exp with
  | none => false
  | some e => (e != 0) && decide (e < nowSec)

/-- `verifyStreamToken(token, secret)` at epoch-second `nowSec`: split on
`'.'` requiring exactly three segments, recompute and compare the signature,
decode the payload (`none` models the caught parse exception), reject when
the truthy `exp` is in the past, reject when the type tag is not `'stream'`;
otherwise return the payload.  Every failure is the value `none`, never an
exception — the source wraps the body in `try`/`catch` returning null. -/
def verifyParts (sign : Str → Str → Str) (dec : Str → Option TokenPayload)
    (parts : List Str) (secret : Str) (nowSec : Int) : Option TokenPayload :=
  match parts with
  | [encodedHeader, encodedPayload, signature] =>
    if signature = sign (encodedHeader ++ '.' :: encodedPayload) secret then
      match dec encodedPayload with
      | none => none
      | some payload =>
        if expiredB payload.exp nowSec then none
        else if payload.type = some streamTag then some payload
        else none
    else none
  | _ => none

def verifyStreamToken (sign : Str → Str → Str) (dec : Str → Option TokenPayload)
    (token secret : Str) (nowSec : Int) : Option TokenPayload :=
  verifyParts sign dec (splitOnDot token) secret nowSec

/-! ### Splitting lemmas -/

theorem splitOnDot_ne_nil (l : Str) : splitOnDot l ≠ [] := by
  cases l with
  | nil => simp [splitOnDot]
  | cons c rest =>
    rw [splitOnDot]
    rcases splitOnDot rest with _ | ⟨s, ss⟩
    · simp
    · by_cases hc : c = '.' <;> simp [hc]

theorem splitOnDot_of_not_mem {a : Str} (h : '.' ∉ a) : splitOnDot a = [a] := by
  induction a with
  | nil => rfl
  | cons c rest ih =>
    have hc : c ≠ '.' := fun hc => h (hc ▸ List.mem_cons_self c rest)
    have hrest : '.' ∉ rest := fun hm => h (List.mem_cons_of_mem c hm)
    rw [splitOnDot, ih hrest]
    simp [hc]

theorem splitOnDot_append {a : Str} (r : Str) (h : '.' ∉ a) :
    splitOnDot (a ++ '.' :: r) = a :: splitOnDot r := by
  induction a with
  | nil =>
    show splitOnDot ('.' :: r) = [] :: splitOnDot r
    rw [splitOnDot]
    rcases hsp : splitOnDot r with _ | ⟨s, ss⟩
    · exact absurd hsp (splitOnDot_ne_nil r)
    · simp
  | cons c a ih =>
    have hc : c ≠ '.' := fun hc => h (hc ▸ List.mem_cons_self c _)
    have ha : '.' ∉ a := fun hm => h (List.mem_cons_of_mem c hm)
    show splitOnDot (c :: (a ++ '.' :: r)) = (c :: a) :: splitOnDot r
    rw [splitOnDot, ih ha]
    simp [hc]

theorem splitOnDot_three {h p s : Str} (hh : '.' ∉ h) (hp : '.' ∉ p) (hs : '.' ∉ s) :
    splitOnDot (h ++ '.' :: (p ++ '.' :: s)) = [h, p, s] := by
  rw [splitOnDot_append _ hh, splitOnDot_append _ hp, splitOnDot_of_not_mem hs]

theorem splitOnDot_signedToken {h p s : Str} (hh : '.' ∉ h) (hp : '.' ∉ p)
    (hs : '.' ∉ s) : splitOnDot ((h ++ '.' :: p) ++ '.' :: s) = [h, p, s] := by
  rw [List.append_assoc, List.cons_append]
  exact splitOnDot_three hh hp hs

/-- Evaluating `verifyStreamToken` on a correctly signed three-segment token
whose payload segment decodes: only the expiry and type checks remain. -/
theorem verify_signedToken (sign : Str → Str → Str) (dec : Str → Option TokenPayload)
    (h p secret : Str) (now : Int) (payload : TokenPayload)
    (hh : '.' ∉ h) (hp : '.' ∉ p) (hs : '.' ∉ sign (h ++ '.' :: p) secret)
    (hdec : dec p = some payload) :
    verifyStreamToken sign dec ((h ++ '.' :: p) ++ '.' :: sign (h ++ '.' :: p) secret)
        secret now =
      if expiredB payload.exp now then none
      else if payload.type = some streamTag then some payload
      else none := by
  rw [verifyStreamToken, splitOnDot_signedToken hh hp hs, verifyParts, if_pos rfl, hdec]

/-- Evaluating `verifyStreamToken` on the output of `generateStreamToken`:
with a positive lifetime and a non-negative issuance instant the result is the
generated payload until `iat + ttl` and `none` strictly afterwards. -/
theorem verify_generate_eval (headerEnc : Str) (enc : TokenPayload → Str)
    (dec : Str → Option TokenPayload) (sign : Str → Str → Str)
    (r i secret : Str) (ttl iat now : Int)
    (hiat : 0 ≤ iat) (httl : 0 < ttl)
    (hh : '.' ∉ headerEnc) (hp : '.' ∉ enc (genPayload r i ttl iat))
    (hs : '.' ∉ sign (headerEnc ++ '.' :: enc (genPayload r i ttl iat)) secret)
    (hdec : dec (enc (genPayload r i ttl iat)) = some (genPayload r i ttl iat)) :
    verifyStreamToken sign dec
        (generateStreamToken headerEnc enc sign r i secret ttl iat) secret now =
      if iat + ttl < now then none else some (genPayload r i ttl iat) := by
  have heval := verify_signedToken sign dec headerEnc (enc (genPayload r i ttl iat))
    secret now (genPayload r i ttl iat) hh hp hs hdec
  have htok : generateStreamToken headerEnc enc sign r i secret ttl iat =
      (headerEnc ++ '.' :: enc (genPayload r i ttl iat)) ++
        '.' :: sign (headerEnc ++ '.' :: enc (genPayload r i ttl iat)) secret := rfl
  rw [htok, heval]
  have hexp : (genPayload r i ttl iat).exp = some (iat + ttl) := rfl
  have hne : iat + ttl ≠ 0 := by omega
  by_cases hlt : iat + ttl < now
  · rw [if_pos hlt]
    have : expiredB (genPayload r i ttl iat).exp now = true := by
      rw [hexp]
      simp [expiredB, hne, hlt]
    rw [this]
    simp
  · rw [if_neg hlt]
    have : expiredB (genPayload r i ttl iat).exp now = false := by
      rw [hexp]
      simp [expiredB, hlt]
    rw [this]
    simp [genPayload]

/-- C3: a token issued by `generateStreamToken(r, i, secret, ttl)` with
`ttl > 0`, verified immediately (at the issuance second), yields a payload
whose `trackId` is `r`, `skillId` is `i` and `type` is `'stream'`; and at any
second strictly later than `iat + ttl` verification returns `none`.
Hypotheses `hh`/`hp`/`hs` record that base64url segments contain no `'.'` and
`hdec` that decoding inverts encoding on this payload. -/
theorem token_roundtrip_and_expiry (headerEnc : Str) (enc : TokenPayload → Str)
    (dec : Str → Option TokenPayload) (sign : Str → Str → Str)
    (r i secret : Str) (ttl iat : Int)
    (hiat : 0 ≤ iat) (httl : 0 < ttl)
    (hh : '.' ∉ headerEnc) (hp : '.' ∉ enc (genPayload r i ttl iat))
    (hs : '.' ∉ sign (headerEnc ++ '.' :: enc (genPayload r i ttl iat)) secret)
    (hdec : dec (enc (genPayload r i ttl iat)) = some (genPayload r i ttl iat)) :
    (verifyStreamToken sign dec
        (generateStreamToken headerEnc enc sign r i secret ttl iat) secret iat =
      some (genPayload r i ttl iat)) ∧
    (genPayload r i ttl iat).trackId = some r ∧
    (genPayload r i ttl iat).skillId = some i ∧
    (genPayload r i ttl iat).type = some streamTag ∧
    ∀ now : Int, iat + ttl < now →
      verifyStreamToken sign dec
        (generateStreamToken headerEnc enc sign r i secret ttl iat) secret now = none := by
  refine ⟨?_, rfl, rfl, rfl, ?_⟩
  · rw [verify_generate_eval headerEnc enc dec sign r i secret ttl iat iat
      hiat httl hh hp hs hdec]
    rw [if_neg (by omega)]
  · intro now hnow
    rw [verify_generate_eval headerEnc enc dec sign r i secret ttl iat now
      hiat httl hh hp hs hdec]
    rw [if_pos hnow]

/-- C7: `verifyStreamToken` takes no expected-issuer input at all — its only
inputs are the token, the shared secret and the clock — and it checks only
the signature, the expiry claim and the type tag.  Two tokens generated with
the same secret at the same instant and differing only in the skillId claim
are therefore both accepted, each returning its own payload. -/
theorem verify_ignores_skillId (headerEnc : Str) (enc : TokenPayload → Str)
    (dec : Str → Option TokenPayload) (sign : Str → Str → Str)
    (r a b secret : Str) (ttl iat now : Int)
    (hiat : 0 ≤ iat) (httl : 0 < ttl) (hnow : ¬ iat + ttl < now)
    (hh : '.' ∉ headerEnc)
    (hpa : '.' ∉ enc (genPayload r a ttl iat))
    (hsa : '.' ∉ sign (headerEnc ++ '.' :: enc (genPayload r a ttl iat)) secret)
    (hdeca : dec (enc (genPayload r a ttl iat)) = some (genPayload r a ttl iat))
    (hpb : '.' ∉ enc (genPayload r b ttl iat))
    (hsb : '.' ∉ sign (headerEnc ++ '.' :: enc (genPayload r b ttl iat)) secret)
    (hdecb : dec (enc (genPayload r b ttl iat)) = some (genPayload r b ttl iat)) :
    (verifyStreamToken sign dec
        (generateStreamToken headerEnc enc sign r a secret ttl iat) secret now =
      some (genPayload r a ttl iat)) ∧
    (verifyStreamToken sign dec
        (generateStreamToken headerEnc enc sign r b secret ttl iat) secret now =
      some (genPayload r b ttl iat)) ∧
    genPayload r a ttl iat = { genPayload r b ttl iat with skillId := some a } := by
  refine ⟨?_, ?_, rfl⟩
  · rw [verify_generate_eval headerEnc enc dec sign r a secret ttl iat now
      hiat httl hh hpa hsa hdeca, if_neg hnow]
  · rw [verify_generate_eval headerEnc enc dec sign r b secret ttl iat now
      hiat httl hh hpb hsb hdecb, if_neg hnow]

/-- C9: a token correctly signed with the shared secret, of type `'stream'`,
whose payload has no `exp` claim (or a zero one, both falsy in JS), is
accepted by `verifyStreamToken` at every verification instant: the guard
`payload.exp && payload.exp < now` skips the expiry comparison entirely. -/
theorem no_exp_token_never_expires (headerEnc : Str) (enc : TokenPayload → Str)
    (dec : Str → Option TokenPayload) (sign : Str → Str → Str)
    (P : TokenPayload) (secret : Str)
    (hexp : P.exp = none ∨ P.exp = some 0) (htype : P.type = some streamTag)
    (hh : '.' ∉ headerEnc) (hp : '.' ∉ enc P)
    (hs : '.' ∉ sign (headerEnc ++ '.' :: enc P) secret)
    (hdec : dec (enc P) = some P) :
    ∀ now : Int, verifyStreamToken sign dec
      ((headerEnc ++ '.' :: enc P) ++ '.' :: sign (headerEnc ++ '.' :: enc P) secret)
      secret now = some P := by
  intro now
  rw [verify_signedToken sign dec headerEnc (enc P) secret now P hh hp hs hdec]
  have hB : expiredB P.exp now = false := by
    rcases hexp with hcase | hcase <;> simp [expiredB, hcase]
  rw [hB]
  simp [htype]

/-! ### Concrete instantiations of the token primitives, used by the
witnesses.  `hEncToy` stands for the encoded constant header; the toy
encoders are executable stand-ins satisfying the stated assumptions at the
concrete payloads used. -/

def hEncToy : Str := ['h']

def payloadA : TokenPayload := genPayload "r".data "a".data 10 0

def payloadB : TokenPayload := genPayload "r".data "b".data 10 0

def encToy : TokenPayload → Str := fun p => if p = payloadA then ['p'] else ['q']

def decToy : Str → Option TokenPayload := fun s =>
  if s = ['p'] then some payloadA else if s = ['q'] then some payloadB else none

def signToy : Str → Str → Str := fun _ _ => ['s']

/-- Witness for `token_roundtrip_and_expiry`: with the toy primitives, the
token issued for track `r` and skill `a` at second 0 with a 10-second
lifetime verifies to its payload at second 0 and to `none` at second 11. -/
theorem token_roundtrip_and_expiry_witness :
    (verifyStreamToken signToy decToy
        (generateStreamToken hEncToy encToy signToy "r".data "a".data "k".data 10 0)
        "k".data 0 = some (genPayload "r".data "a".data 10 0)) ∧
    verifyStreamToken signToy decToy
        (generateStreamToken hEncToy encToy signToy "r".data "a".data "k".data 10 0)
        "k".data 11 = none := by
  have h := token_roundtrip_and_expiry hEncToy encToy decToy signToy
    "r".data "a".data "k".data 10 0 (by decide) (by decide) (by decide) (by decide)
    (by decide) (by decide)
  exact ⟨h.1, h.2.2.2.2 11 (by decide)⟩

/-- Witness for `verify_ignores_skillId`: tokens for skills `a` and `b`,
otherwise identical, are both accepted at second 5. -/
theorem verify_ignores_skillId_witness :
    (verifyStreamToken signToy decToy
        (generateStreamToken hEncToy encToy signToy "r".data "a".data "k".data 10 0)
        "k".data 5 = some (genPayload "r".data "a".data 10 0)) ∧
    verifyStreamToken signToy decToy
        (generateStreamToken hEncToy encToy signToy "r".data "b".data "k".data 10 0)
        "k".data 5 = some (genPayload "r".data "b".data 10 0) := by
  have h := verify_ignores_skillId hEncToy encToy decToy signToy
    "r".data "a".data "b".data "k".data 10 0 5 (by decide) (by decide) (by decide)
    (by decide) (by decide) (by decide) (by decide) (by decide) (by decide) (by decide)
  exact ⟨h.1, h.2.1⟩

/-- A payload with no `exp` claim, type `'stream'`. -/
def payloadNoExp : TokenPayload :=
  { trackId := some "r".data
    skillId := some "a".data
    type := some streamTag
    iat := some 0
    exp := none
    iss := some issTag
    sub := some "r".data }

def encToyNoExp : TokenPayload → Str := fun _ => ['p']

def decToyNoExp : Str → Option TokenPayload := fun s =>
  if s = ['p'] then some payloadNoExp else none

/-- Witness for `no_exp_token_never_expires`: the exp-less toy token is still
accepted at second 999999999. -/
theorem no_exp_token_never_expires_witness :
    verifyStreamToken signToy decToyNoExp
      ((hEncToy ++ '.' :: encToyNoExp payloadNoExp) ++
        '.' :: signToy (hEncToy ++ '.' :: encToyNoExp payloadNoExp) "k".data)
      "k".data 999999999 = some payloadNoExp :=
  no_exp_token_never_expires hEncToy encToyNoExp decToyNoExp signToy payloadNoExp
    "k".data (Or.inl rfl) rfl (by decide) (by decide) (by decide) (by decide) 999999999

/-- C4: altering a single character of the payload segment or of the
signature segment of a token produced by `generateStreamToken` (whose output
is literally `header ++ '.' ++ payload ++ '.' ++ signature`) makes
`verifyStreamToken` return the value `none` — never an exception, since the
embedding is a total function mirroring the source's `try`/`catch`.  If the
replacement character is `'.'` the token splits into four segments and fails
the shape check; otherwise a signature-segment change fails the comparison
against the recomputed signature outright, and a payload-segment change fails
it under the collision-freedom assumption `hinj` on the keyed hash. -/
theorem token_tamper_returns_none (headerEnc : Str) (enc : TokenPayload → Str)
    (dec : Str → Option TokenPayload) (sign : Str → Str → Str)
    (r i secret : Str) (ttl iat : Int) (n : Nat) (c : Char) (tok : Str)
    (hh : '.' ∉ headerEnc) (hp : '.' ∉ enc (genPayload r i ttl iat))
    (hs : '.' ∉ sign (headerEnc ++ '.' :: enc (genPayload r i ttl iat)) secret)
    (hinj : ∀ d1 d2 : Str, sign d1 secret = sign d2 secret → d1 = d2)
    (halter :
      (n < (enc (genPayload r i ttl iat)).length ∧
        (enc (genPayload r i ttl iat))[n]? ≠ some c ∧
        tok = headerEnc ++ '.' :: ((enc (genPayload r i ttl iat)).set n c ++
          '.' :: sign (headerEnc ++ '.' :: enc (genPayload r i ttl iat)) secret)) ∨
      (n < (sign (headerEnc ++ '.' :: enc (genPayload r i ttl iat)) secret).length ∧
        (sign (headerEnc ++ '.' :: enc (genPayload r i ttl iat)) secret)[n]? ≠ some c ∧
        tok = headerEnc ++ '.' :: (enc (genPayload r i ttl iat) ++
          '.' :: (sign (headerEnc ++ '.' :: enc (genPayload r i ttl iat)) secret).set n c))) :
    ∀ now : Int, verifyStreamToken sign dec tok secret now = none := by
  intro now
  rcases halter with ⟨hn, hgetne, htok⟩ | ⟨hn, hgetne, htok⟩
  · by_cases hc : c = '.'
    · subst hc
      have hdecomp := List.set_eq_take_cons_drop '.' hn
      have h1 : '.' ∉ (enc (genPayload r i ttl iat)).take n :=
        fun hm => hp (List.take_subset _ _ hm)
      have h2 : '.' ∉ (enc (genPayload r i ttl iat)).drop (n + 1) :=
        fun hm => hp (List.drop_subset _ _ hm)
      have hsplit : splitOnDot tok =
          [headerEnc, (enc (genPayload r i ttl iat)).take n,
            (enc (genPayload r i ttl iat)).drop (n + 1),
            sign (headerEnc ++ '.' :: enc (genPayload r i ttl iat)) secret] := by
        rw [htok, hdecomp, List.append_assoc, List.cons_append,
          splitOnDot_append _ hh, splitOnDot_append _ h1, splitOnDot_append _ h2,
          splitOnDot_of_not_mem hs]
      rw [verifyStreamToken, hsplit]
      rfl
    · have hp' : '.' ∉ (enc (genPayload r i ttl iat)).set n c := by
        intro hm
        rcases List.mem_or_eq_of_mem_set hm with hm | hm
        · exact hp hm
        · exact hc hm.symm
      have hsplit : splitOnDot tok =
          [headerEnc, (enc (genPayload r i ttl iat)).set n c,
            sign (headerEnc ++ '.' :: enc (genPayload r i ttl iat)) secret] := by
        rw [htok]
        exact splitOnDot_three hh hp' hs
      have hne : sign (headerEnc ++ '.' :: enc (genPayload r i ttl iat)) secret ≠
          sign (headerEnc ++ '.' :: (enc (genPayload r i ttl iat)).set n c) secret := by
        intro he
        have heq := hinj _ _ he
        have heq2 := List.append_cancel_left heq
        have heq3 : enc (genPayload r i ttl iat) =
            (enc (genPayload r i ttl iat)).set n c := by
          injection heq2
        have hget : ((enc (genPayload r i ttl iat)).set n c)[n]? = some c :=
          List.getElem?_set_eq_of_lt c hn
        rw [← heq3] at hget
        exact hgetne hget
      rw [verifyStreamToken, hsplit, verifyParts, if_neg hne]
  · by_cases hc : c = '.'
    · subst hc
      have hdecomp := List.set_eq_take_cons_drop '.' hn
      have h1 : '.' ∉ (sign (headerEnc ++ '.' :: enc (genPayload r i ttl iat)) secret).take n :=
        fun hm => hs (List.take_subset _ _ hm)
      have h2 : '.' ∉ (sign (headerEnc ++ '.' :: enc (genPayload r i ttl iat)) secret).drop (n + 1) :=
        fun hm => hs (List.drop_subset _ _ hm)
      have hsplit : splitOnDot tok =
          [headerEnc, enc (genPayload r i ttl iat),
            (sign (headerEnc ++ '.' :: enc (genPayload r i ttl iat)) secret).take n,
            (sign (headerEnc ++ '.' :: enc (genPayload r i ttl iat)) secret).drop (n + 1)] := by
        rw [htok, hdecomp, splitOnDot_append _ hh, splitOnDot_append _ hp,
          splitOnDot_append _ h1, splitOnDot_of_not_mem h2]
      rw [verifyStreamToken, hsplit]
      rfl
    · have hs' : '.' ∉ (sign (headerEnc ++ '.' :: enc (genPayload r i ttl iat)) secret).set n c := by
        intro hm
        rcases List.mem_or_eq_of_mem_set hm with hm | hm
        · exact hs hm
        · exact hc hm.symm
      have hsplit : splitOnDot tok =
          [headerEnc, enc (genPayload r i ttl iat),
            (sign (headerEnc ++ '.' :: enc (genPayload r i ttl iat)) secret).set n c] := by
        rw [htok]
        exact splitOnDot_three hh hp hs'
      have hne : (sign (headerEnc ++ '.' :: enc (genPayload r i ttl iat)) secret).set n c ≠
          sign (headerEnc ++ '.' :: enc (genPayload r i ttl iat)) secret := by
        intro he
        have hget : ((sign (headerEnc ++ '.' :: enc (genPayload r i ttl iat)) secret).set n c)[n]? = some c :=
          List.getElem?_set_eq_of_lt c hn
        rw [he] at hget
        exact hgetne hget
      rw [verifyStreamToken, hsplit, verifyParts, if_neg hne]

/-! ### An executable collision-free signing function for the tamper witness:
each input character is spelled out as its 21 code-point bits, so distinct
inputs have distinct images and the image never contains `'.'`. -/

def charBits (c : Char) : Str :=
  (List.range 21).map (fun k => if c.toNat.testBit k then '1' else '0')

def blockEnc (l : Str) : Str := (l.map charBits).flatten

def signBlk : Str → Str → Str := fun d _ => blockEnc d

theorem charBits_length (c : Char) : (charBits c).length = 21 := by
  simp [charBits]

theorem char_toNat_lt (c : Char) : c.toNat < 2 ^ 21 := by
  rcases c.valid with h | ⟨h1, h2⟩
  · exact Nat.lt_trans h (by norm_num)
  · exact Nat.lt_trans h2 (by norm_num)

theorem charBits_inj {c1 c2 : Char} (h : charBits c1 = charBits c2) : c1 = c2 := by
  have hbit : ∀ k, c1.toNat.testBit k = c2.toNat.testBit k := by
    intro k
    by_cases hk : k < 21
    · have e1 : (charBits c1)[k]? = some (if c1.toNat.testBit k then '1' else '0') := by
        simp [charBits, List.getElem?_map, List.getElem?_range, hk]
      have e2 : (charBits c2)[k]? = some (if c2.toNat.testBit k then '1' else '0') := by
        simp [charBits, List.getElem?_map, List.getElem?_range, hk]
      rw [h, e2] at e1
      have hif := Option.some.inj e1.symm
      cases hb1 : c1.toNat.testBit k <;> cases hb2 : c2.toNat.testBit k <;>
        simp_all
    · have hk21 : 21 ≤ k := Nat.le_of_not_lt hk
      have hle : (2 : ℕ) ^ 21 ≤ 2 ^ k := Nat.pow_le_pow_right (by norm_num) hk21
      rw [Nat.testBit_eq_false_of_lt (Nat.lt_of_lt_of_le (char_toNat_lt c1) hle),
        Nat.testBit_eq_false_of_lt (Nat.lt_of_lt_of_le (char_toNat_lt c2) hle)]
  have hn : c1.toNat = c2.toNat := Nat.eq_of_testBit_eq hbit
  have hc := congrArg Char.ofNat hn
  rwa [Char.ofNat_toNat, Char.ofNat_toNat] at hc

theorem blockEnc_inj : ∀ {l1 l2 : Str}, blockEnc l1 = blockEnc l2 → l1 = l2 := by
  intro l1
  induction l1 with
  | nil =>
    intro l2 h
    cases l2 with
    | nil => rfl
    | cons b t2 =>
      exfalso
      have h2 : charBits b ++ (t2.map charBits).flatten = [] := by
        simpa [blockEnc] using h.symm
      have := congrArg List.length h2
      simp [charBits_length] at this
  | cons a t1 ih =>
    intro l2 h
    cases l2 with
    | nil =>
      exfalso
      have h2 : charBits a ++ (t1.map charBits).flatten = [] := by
        simpa [blockEnc] using h
      have := congrArg List.length h2
      simp [charBits_length] at this
    | cons b t2 =>
      have h2 : charBits a ++ (t1.map charBits).flatten =
          charBits b ++ (t2.map charBits).flatten := by
        simpa [blockEnc] using h
      have hlen : (charBits a).length = (charBits b).length := by
        rw [charBits_length, charBits_length]
      obtain ⟨hab, hrest⟩ := List.append_inj h2 hlen
      rw [charBits_inj hab, ih hrest]

theorem blockEnc_no_dot (l : Str) : '.' ∉ blockEnc l := by
  intro hm
  rcases List.mem_flatten.mp hm with ⟨x, hx, hdot⟩
  rcases List.mem_map.mp hx with ⟨c, _, rfl⟩
  rcases List.mem_map.mp hdot with ⟨k, _, hkeq⟩
  cases htb : c.toNat.testBit k <;> rw [htb] at hkeq <;> exact absurd hkeq (by decide)

/-- Witness for `token_tamper_returns_none`: with the collision-free
`signBlk`, replacing the first character of the toy token's payload segment
with `'q'` makes verification return `none`. -/
theorem token_tamper_returns_none_witness :
    verifyStreamToken signBlk decToy
      (hEncToy ++ '.' :: ((encToyNoExp payloadA).set 0 'q' ++
        '.' :: signBlk (hEncToy ++ '.' :: encToyNoExp payloadA) "k".data))
      "k".data 0 = none :=
  token_tamper_returns_none hEncToy encToyNoExp decToy signBlk "r".data "a".data
    "k".data 10 0 0 'q' _ (by decide) (by decide) (blockEnc_no_dot _)
    (fun d1 d2 hsg => blockEnc_inj hsg)
    (Or.inl ⟨by decide, by decide, rfl⟩) 0

/-! ## Alexa request timestamp check (alexaVerifier.js)

`AlexaVerifier.verifyTimestamp` reads `alexaRequest.request?.timestamp`;
a missing (falsy) timestamp throws `Missing request timestamp`, and a
difference `|now - requestTime|` strictly above 150000 ms throws
`Request timestamp too old` — the spec's `TimestampExpired` failure.  Thrown
errors are modelled with `Except`. -/

inductive AlexaVerifyError where
  | missingTimestamp
  | timestampExpired
deriving DecidableEq, Repr

def verifyTimestamp (timestamp : Option Int) (now : Int) :
    Except AlexaVerifyError Unit :=
  match timestamp with
  | none => .error .missingTimestamp
  | some requestTime =>
    if (now - requestTime).natAbs > 150000 then .error .timestampExpired
    else .ok ()

/-- C5: the timestamp window is inclusive at 150000 ms: a request whose
embedded timestamp is exactly 150000 ms away from now passes the check, and
one 150001 ms (or more) away fails with the `TimestampExpired` failure — the
rejection condition is strictly greater than 150000 ms. -/
theorem timestamp_window_boundary (now requestTime : Int) :
    ((now - requestTime).natAbs = 150000 →
      verifyTimestamp (some requestTime) now = .ok ()) ∧
    (150001 ≤ (now - requestTime).natAbs →
      verifyTimestamp (some requestTime) now = .error .timestampExpired) := by
  constructor
  · intro h
    rw [verifyTimestamp, if_neg (by omega)]
  · intro h
    rw [verifyTimestamp, if_pos (by omega)]

/-- Witness for `timestamp_window_boundary`: at `now = 150000` a request
stamped 0 passes; at `now = 150001` it is rejected. -/
theorem timestamp_window_boundary_witness :
    verifyTimestamp (some 0) 150000 = .ok () ∧
    verifyTimestamp (some 0) 150001 = .error .timestampExpired :=
  ⟨(timestamp_window_boundary 150000 0).1 (by decide),
   (timestamp_window_boundary 150001 0).2 (by decide)⟩

/-! ## Fixed-window rate limiter (rateLimit.js)

The in-memory `rateLimitCache` maps a key to `{count, timestamp}`.  The
sampled `Math.random() < 0.01` cleanup trigger is modelled by an explicit
boolean `doCleanup` input, so the theorems hold for either outcome of the
sampling.  The `try`/`catch` fail-open path concerns runtime storage errors
that cannot occur in the pure embedding. -/

structure RLEntry where
  count : Nat
  timestamp : Int
deriving DecidableEq, Repr

def RLCache : Type := String → Option RLEntry

def rlSet (m : RLCache) (key : String) (e : RLEntry) : RLCache :=
  fun k => if k = key then some e else m k

/-- `cleanupOldEntries()`: drop every entry older than 5 minutes. -/
def cleanupOldEntries (m : RLCache) (now : Int) : RLCache :=
  fun k =>
    match m k with
    | some e => if now - e.timestamp > 300000 then none else some e
    | none => none

/-- The new-window branch of `rateLimitCheck`: store `{count: 1, timestamp:
now}`, run the sampled cleanup, allow with `limit - 1` remaining. -/
def rlNewWindow (m : RLCache) (key : String) (now : Int) (limit : Nat)
    (doCleanup : Bool) : (Bool × Int) × RLCache :=
  let m1 := rlSet m key ⟨1, now⟩
  ((true, (limit : Int) - 1), if doCleanup then cleanupOldEntries m1 now else m1)

/-- `rateLimitCheck(request, kv, {limit, window})` for the key derived from
the client IP: within the current window a count at the limit denies without
mutating, otherwise the counter is incremented; outside the window (or with
no entry) the counter is re-seeded.  Returns `((allowed, remaining), cache)`. -/
def rateLimitCheck (m : RLCache) (key : String) (now : Int) (limit : Nat)
    (window : Nat) (doCleanup : Bool) : (Bool × Int) × RLCache :=
  match m key with
  | some cached =>
    if now - cached.timestamp < (window : Int) * 1000 then
      if cached.count ≥ limit then ((false, 0), m)
      else ((true, (limit : Int) - (cached.count + 1)),
        rlSet m key ⟨cached.count + 1, cached.timestamp⟩)
    else rlNewWindow m key now limit doCleanup
  | none => rlNewWindow m key now limit doCleanup

/-- The cache after `n` sequential `rateLimitCheck` calls for the same `key`,
the `i`-th call at instant `t i` with sampled-cleanup outcome `clean i`. -/
def rlRun (m : RLCache) (key : String) (limit window : Nat) (t : Nat → Int)
    (clean : Nat → Bool) : Nat → RLCache
  | 0 => m
  | n + 1 =>
    (rateLimitCheck (rlRun m key limit window t clean n) key (t n) limit window
      (clean n)).2

/-- Whether the `(n+1)`-th call of the sequence is allowed. -/
def rlAllowed (m : RLCache) (key : String) (limit window : Nat) (t : Nat → Int)
    (clean : Nat → Bool) (n : Nat) : Bool :=
  (rateLimitCheck (rlRun m key limit window t clean n) key (t n) limit window
    (clean n)).1.1

theorem rlNewWindow_at_key (m : RLCache) (key : String) (now : Int) (limit : Nat)
    (doCleanup : Bool) :
    (rlNewWindow m key now limit doCleanup).2 key = some ⟨1, now⟩ := by
  cases doCleanup <;> simp [rlNewWindow, rlSet, cleanupOldEntries]

theorem rlRun_state (m : RLCache) (key : String) (limit window : Nat)
    (t : Nat → Int) (clean : Nat → Bool) (hm : m key = none) :
    ∀ n, 1 ≤ n → n ≤ limit →
      (∀ i, i < n → t i - t 0 < (window : Int) * 1000) →
      rlRun m key limit window t clean n key = some ⟨n, t 0⟩ := by
  intro n
  induction n with
  | zero => intro h1 _ _; exact absurd h1 (by decide)
  | succ n ih =>
    intro h1 h2 h3
    cases n with
    | zero =>
      show (rateLimitCheck m key (t 0) limit window (clean 0)).2 key = some ⟨1, t 0⟩
      simp only [rateLimitCheck, hm]
      exact rlNewWindow_at_key m key (t 0) limit (clean 0)
    | succ k =>
      have hst := ih (by omega) (by omega) (fun i hi => h3 i (by omega))
      show (rateLimitCheck (rlRun m key limit window t clean (k + 1)) key (t (k + 1))
        limit window (clean (k + 1))).2 key = some ⟨k + 1 + 1, t 0⟩
      simp only [rateLimitCheck, hst]
      rw [if_pos (h3 (k + 1) (by omega)), if_neg (by omega : ¬ k + 1 ≥ limit)]
      simp [rlSet]

/-- C6: starting with no counter for the key and `limit ≥ 1`, the first
`limit` calls within one window are all allowed, the `(limit+1)`-th call in
that window is denied, and the first call at or past `window start + W`
(window start being the first call's instant `t 0`, `W = window * 1000` ms)
is allowed again with the counter re-seeded to 1. -/
theorem rateLimiter_window_behavior (m : RLCache) (key : String)
    (limit window : Nat) (t : Nat → Int) (clean : Nat → Bool)
    (tNew : Int) (cleanNew : Bool)
    (hm : m key = none) (hlim : 1 ≤ limit)
    (hwin : ∀ i, i ≤ limit → t i - t 0 < (window : Int) * 1000)
    (hreset : (window : Int) * 1000 ≤ tNew - t 0) :
    (∀ n, n < limit → rlAllowed m key limit window t clean n = true) ∧
    rlAllowed m key limit window t clean limit = false ∧
    (rateLimitCheck (rlRun m key limit window t clean (limit + 1)) key tNew limit
        window cleanNew).1.1 = true ∧
    (rateLimitCheck (rlRun m key limit window t clean (limit + 1)) key tNew limit
        window cleanNew).2 key = some ⟨1, tNew⟩ := by
  have hstate : ∀ n, 1 ≤ n → n ≤ limit →
      rlRun m key limit window t clean n key = some ⟨n, t 0⟩ :=
    fun n h1 h2 =>
      rlRun_state m key limit window t clean hm n h1 h2 (fun i hi => hwin i (by omega))
  have hlimState : rlRun m key limit window t clean limit key = some ⟨limit, t 0⟩ :=
    hstate limit hlim le_rfl
  have hfrozen : rlRun m key limit window t clean (limit + 1) =
      rlRun m key limit window t clean limit := by
    show (rateLimitCheck (rlRun m key limit window t clean limit) key (t limit)
      limit window (clean limit)).2 = _
    simp only [rateLimitCheck, hlimState]
    rw [if_pos (hwin limit le_rfl), if_pos (le_refl limit)]
  refine ⟨?_, ?_, ?_, ?_⟩
  · intro n hn
    cases n with
    | zero =>
      show (rateLimitCheck m key (t 0) limit window (clean 0)).1.1 = true
      simp only [rateLimitCheck, hm]
      rfl
    | succ k =>
      show (rateLimitCheck (rlRun m key limit window t clean (k + 1)) key (t (k + 1))
        limit window (clean (k + 1))).1.1 = true
      simp only [rateLimitCheck, hstate (k + 1) (by omega) (by omega)]
      rw [if_pos (hwin (k + 1) (by omega)), if_neg (by omega : ¬ k + 1 ≥ limit)]
  · show (rateLimitCheck (rlRun m key limit window t clean limit) key (t limit)
      limit window (clean limit)).1.1 = false
    simp only [rateLimitCheck, hlimState]
    rw [if_pos (hwin limit le_rfl), if_pos (le_refl limit)]
  · rw [hfrozen]
    simp only [rateLimitCheck, hlimState]
    rw [if_neg (by omega : ¬ tNew - t 0 < (window : Int) * 1000)]
    rfl
  · rw [hfrozen]
    simp only [rateLimitCheck, hlimState]
    rw [if_neg (by omega : ¬ tNew - t 0 < (window : Int) * 1000)]
    exact rlNewWindow_at_key _ key tNew limit cleanNew

def rlEmpty : RLCache := fun _ => none

def tZero : Nat → Int := fun _ => 0

def cleanNone : Nat → Bool := fun _ => false

/-- Witness for `rateLimiter_window_behavior`: key `"k"`, limit 2, a
1-second window, all calls at instant 0, then a call at instant 1000. -/
theorem rateLimiter_window_behavior_witness :
    rlAllowed rlEmpty "k" 2 1 tZero cleanNone 0 = true ∧
    rlAllowed rlEmpty "k" 2 1 tZero cleanNone 1 = true ∧
    rlAllowed rlEmpty "k" 2 1 tZero cleanNone 2 = false ∧
    (rateLimitCheck (rlRun rlEmpty "k" 2 1 tZero cleanNone 3) "k" 1000 2 1
      false).1.1 = true := by
  have h := rateLimiter_window_behavior rlEmpty "k" 2 1 tZero cleanNone 1000 false
    rfl (by decide) (fun i _ => by norm_num [tZero]) (by norm_num [tZero])
  exact ⟨h.1 0 (by decide), h.1 1 (by decide), h.2.1, h.2.2.1⟩

/-- Caches reachable from the empty in-memory cache by `rateLimitCheck`
calls with a fixed limit (arbitrary keys, instants, window lengths and
sampled-cleanup outcomes). -/
inductive RLReach (limit : Nat) : RLCache → Prop where
  | empty : RLReach limit (fun _ => none)
  | step {m : RLCache} (key : String) (now : Int) (window : Nat) (doCleanup : Bool) :
      RLReach limit m →
      RLReach limit (rateLimitCheck m key now limit window doCleanup).2

theorem cleanup_subset {m : RLCache} {now : Int} {k : String} {e : RLEntry}
    (h : cleanupOldEntries m now k = some e) : m k = some e := by
  rcases hmk : m k with _ | e'
  · simp only [cleanupOldEntries, hmk] at h
    exact h
  · simp only [cleanupOldEntries, hmk] at h
    split at h
    · cases h
    · exact h

theorem rlSet_some {m : RLCache} {key : String} {e' : RLEntry} {k : String}
    {e : RLEntry} (h : rlSet m key e' k = some e) : e = e' ∨ m k = some e := by
  rw [rlSet] at h
  by_cases hk : k = key
  · rw [if_pos hk] at h
    exact Or.inl (Option.some.inj h).symm
  · rw [if_neg hk] at h
    exact Or.inr h

theorem rlNewWindow_some {m : RLCache} {key : String} {now : Int} {limit : Nat}
    {doCleanup : Bool} {k : String} {e : RLEntry}
    (h : (rlNewWindow m key now limit doCleanup).2 k = some e) :
    e = ⟨1, now⟩ ∨ m k = some e := by
  cases hdc : doCleanup
  · simp only [rlNewWindow, hdc, Bool.false_eq_true, if_false] at h
    rcases rlSet_some h with he | hold
    · exact Or.inl he
    · exact Or.inr hold
  · simp only [rlNewWindow, hdc, if_true] at h
    rcases rlSet_some (cleanup_subset h) with he | hold
    · exact Or.inl he
    · exact Or.inr hold

theorem rlReach_invariant {limit : Nat} (hlim : 1 ≤ limit) {m : RLCache}
    (hm : RLReach limit m) :
    ∀ k e, m k = some e → 1 ≤ e.count ∧ e.count ≤ limit := by
  induction hm with
  | empty => intro k e h; cases h
  | @step m key now window doCleanup hr ih =>
    intro k e h
    rcases hmk : m key with _ | cached
    · simp only [rateLimitCheck, hmk] at h
      rcases rlNewWindow_some h with he | hold
      · rw [he]
        exact ⟨le_rfl, hlim⟩
      · exact ih k e hold
    · simp only [rateLimitCheck, hmk] at h
      by_cases hc1 : now - cached.timestamp < (window : Int) * 1000
      · rw [if_pos hc1] at h
        by_cases hc2 : cached.count ≥ limit
        · rw [if_pos hc2] at h
          exact ih k e h
        · rw [if_neg hc2] at h
          have h' : rlSet m key ⟨cached.count + 1, cached.timestamp⟩ k = some e := h
          rcases rlSet_some h' with he | hold
          · rw [he]
            show 1 ≤ cached.count + 1 ∧ cached.count + 1 ≤ limit
            omega
          · exact ih k e hold
      · rw [if_neg hc1] at h
        rcases rlNewWindow_some h with he | hold
        · rw [he]
          exact ⟨le_rfl, hlim⟩
        · exact ih k e hold

theorem rateLimitCheck_denied_no_change (m : RLCache) (key : String) (now : Int)
    (limit window : Nat) (doCleanup : Bool)
    (h : (rateLimitCheck m key now limit window doCleanup).1.1 = false) :
    (rateLimitCheck m key now limit window doCleanup).2 = m := by
  rcases hmk : m key with _ | cached
  · exfalso
    simp only [rateLimitCheck, hmk] at h
    simp [rlNewWindow] at h
  · simp only [rateLimitCheck, hmk] at h ⊢
    by_cases hc1 : now - cached.timestamp < (window : Int) * 1000
    · rw [if_pos hc1] at h ⊢
      by_cases hc2 : cached.count ≥ limit
      · rw [if_pos hc2]
      · rw [if_neg hc2] at h
        simp at h
    · rw [if_neg hc1] at h
      simp [rlNewWindow] at h

/-- C10: in every cache reachable by `rateLimitCheck` calls with limit
`N ≥ 1`, every stored counter lies in `[1, N]` — the counter is incremented
only while strictly below the limit — and a denied call leaves the entry for
its key (indeed the whole cache) unchanged. -/
theorem rateLimiter_count_bounded {limit : Nat} (hlim : 1 ≤ limit) {m : RLCache}
    (hm : RLReach limit m) :
    (∀ k e, m k = some e → 1 ≤ e.count ∧ e.count ≤ limit) ∧
    (∀ key now window doCleanup,
      (rateLimitCheck m key now limit window doCleanup).1.1 = false →
      (rateLimitCheck m key now limit window doCleanup).2 key = m key) :=
  ⟨rlReach_invariant hlim hm,
   fun key now window doCleanup h =>
     congrFun (rateLimitCheck_denied_no_change m key now limit window doCleanup h) key⟩

/-- Witness for `rateLimiter_count_bounded`: after one call on the empty
cache with limit 2, the stored entry for `"k"` is `{count := 1}`, within
bounds. -/
theorem rateLimiter_count_bounded_witness :
    1 ≤ (RLEntry.mk 1 0).count ∧ (RLEntry.mk 1 0).count ≤ 2 :=
  (rateLimiter_count_bounded (by decide : 1 ≤ 2)
    (RLReach.step "k" 0 60 false RLReach.empty)).1 "k" ⟨1, 0⟩ (by decide)
